import Mathlib

set_option linter.unusedVariables false
set_option linter.unnecessarySeqFocus false

namespace Lemon

/-! Shallow embedding of the CurationsLA content pipeline.

Strings are modelled as `List Char`; JavaScript string operations become
explicit list functions.  The repository contains two worker variants:
`src/content-sourcer.js` (the canonical content sourcer) and the master
router (an unnamed source file) whose `filterGoodVibes`, `parseRSSFeed` and
`extractDomain` differ from the sourcer's versions; both are embedded.
All embedded functions are total Lean definitions, so the JavaScript
possibility of a thrown exception is modelled by `Option` where the source
can actually throw, and "never throws" claims correspond to totality plus
the stated degradation behaviour. -/

/-- Coerce a Lean string literal to the `List Char` representation used throughout. -/
def str (s : String) : List Char := s.data

/-- Model of JavaScript `toLowerCase()` (ASCII case mapping via `Char.toLower`). -/
def lower (l : List Char) : List Char := l.map Char.toLower

/-- Model of JavaScript `String.prototype.includes`: substring containment. -/
def containsSub (n : List Char) : List Char → Bool
  | [] => n.isEmpty
  | h :: t => n.isPrefixOf (h :: t) || containsSub n t

/-- The filter configuration loaded from `config/sources.json` by
`src/content-sourcer.js`.  The JSON file itself is not part of the snapshot, so the
configuration is a parameter; the fields are exactly those the code reads. -/
structure SourcesConfig where
  negative_keywords : List (List Char)
  good_vibes_keywords : List (List Char)
  required_la_keywords : List (List Char)
  min_good_vibes_score : Nat

/-- An item record as produced by `parseRSSItems` in `src/content-sourcer.js`. -/
structure SItem where
  title : List Char
  link : List Char
  description : List Char
  deriving DecidableEq

/-- The lowercased `title + " " + description` text that
`filterGoodVibesContent` (src/content-sourcer.js line 337) matches keywords against. -/
def itemText (it : SItem) : List Char := lower (it.title ++ ' ' :: it.description)

/-- The per-item predicate of `filterGoodVibesContent`
(src/content-sourcer.js lines 336-357): banned-keyword veto, then positive-keyword
score threshold conjoined with an LA-keyword requirement. -/
def goodVibesPred (cfg : SourcesConfig) (it : SItem) : Bool :=
  let text := itemText it
  let hasNegative := cfg.negative_keywords.any (fun keyword => containsSub (lower keyword) text)
  if hasNegative then false
  else
    let goodVibesScore := cfg.good_vibes_keywords.foldl
      (fun score keyword => if containsSub (lower keyword) text then score + 1 else score) 0
    let hasLAKeyword := cfg.required_la_keywords.any (fun keyword => containsSub (lower keyword) text)
    decide (cfg.min_good_vibes_score ≤ goodVibesScore) && hasLAKeyword

/-- `filterGoodVibesContent` from `src/content-sourcer.js` (lines 335-358). -/
def filterGoodVibesContent (cfg : SourcesConfig) (items : List SItem) : List SItem :=
  items.filter (goodVibesPred cfg)

/-- An item record as produced by `parseRSSFeed` in the master-router worker. -/
structure RItem where
  title : List Char
  link : List Char
  excerpt : List Char
  source : List Char
  deriving DecidableEq

/-- The banned-word list hardcoded in the master router's `filterGoodVibes`. -/
def bannedWords : List (List Char) :=
  [str "crime", str "shooting", str "murder", str "death", str "accident"]

/-- The positive-word list hardcoded in the master router's `filterGoodVibes`. -/
def goodWords : List (List Char) :=
  [str "art", str "music", str "food", str "culture", str "community", str "festival"]

/-- The lowercased `title + ' ' + excerpt` text used by the master router's
`filterGoodVibes`. -/
def ritemText (it : RItem) : List Char := lower (it.title ++ ' ' :: it.excerpt)

/-- `filterGoodVibes` from the master-router worker (lines 389-400).  The call
`Math.random() > 0.3` is modelled by an explicit oracle `rand` indexed by the
number of `Math.random()` calls made so far; the oracle is consulted exactly on
the fallback branch, as in the source. -/
def filterGoodVibes (rand : Nat → ℚ) : Nat → List RItem → List RItem
  | _, [] => []
  | k, it :: rest =>
    let text := ritemText it
    if bannedWords.any (fun word => containsSub word text) then
      filterGoodVibes rand k rest
    else if goodWords.any (fun word => containsSub word text) then
      it :: filterGoodVibes rand k rest
    else if rand k > 3 / 10 then
      it :: filterGoodVibes rand (k + 1) rest
    else
      filterGoodVibes rand (k + 1) rest

/-- Configuration used for concrete counterexamples and witnesses. -/
def cfgA : SourcesConfig :=
  ⟨[str "crime"], [str "art", str "food"], [str "la"], 1⟩

/-- An item whose text contains a banned keyword and also satisfies both
positive-score and locality conjuncts. -/
def itemBanned : SItem := ⟨str "crime and art", str "https://example.com", str "la night"⟩

/-- An item accepted by `cfgA`: score 1 ≥ 1 and locality keyword present, no
banned keyword. -/
def itemGood : SItem := ⟨str "LA Art Walk", str "https://example.com", str "street food"⟩

/-- An `RItem` whose text contains the banned word "crime". -/
def ritemBanned : RItem :=
  ⟨str "crime report", str "https://example.com", str "la art news", str "example.com"⟩

/-- An `RItem` matching neither a banned word nor a positive word, so the master
router's `filterGoodVibes` decides it on `Math.random() > 0.3` alone. -/
def ritemNeutral : RItem :=
  ⟨str "hello", str "https://example.com", str "a quiet afternoon", str "example.com"⟩

/-! Item extraction (`parseRSSFeed` in the master router, `parseRSSItems` in
`src/content-sourcer.js`).  The JavaScript regex-based extraction is embedded by
direct implementation of the deterministic matching behaviour of the concrete
patterns used by the code (left-to-right search with the actual backtracking
semantics of each pattern, which is deterministic here because the character
classes `[^>]`, `[^<]`, `[^\]]`, `[^;]` cannot cross their terminators).
Scanners that advance past consumed matches recurse on a fuel parameter
initialised to the string length, which each step strictly exceeds the
consumption of; this keeps every definition structurally recursive and
kernel-computable. -/

/-- Case-insensitive prefix test, modelling the regex `i` flag on literal parts. -/
def ciStartsWith : List Char → List Char → Bool
  | [], _ => true
  | _ :: _, [] => false
  | p :: ps, c :: cs => (p.toLower == c.toLower) && ciStartsWith ps cs

/-- Consume `[^>]*>` — everything up to and including the first `>`; `none` when
no `>` remains (the regex then fails at this start position). -/
def afterFirstGt (l : List Char) : Option (List Char) :=
  match l.dropWhile (fun c => c ≠ '>') with
  | [] => none
  | _ :: t => some t

/-- Lazy `[\s\S]*?` scan up to the first case-insensitive occurrence of `close`;
returns the skipped characters and the remainder after `close`. -/
def scanCloseAny (close : List Char) : List Char → Option (List Char × List Char)
  | [] => none
  | c :: rest =>
    if ciStartsWith close (c :: rest) then some ([], (c :: rest).drop close.length)
    else
      match scanCloseAny close rest with
      | some (inner, after) => some (c :: inner, after)
      | none => none

/-- Lazy `(.*?)` scan up to the first case-insensitive occurrence of `close`;
the dot does not match JavaScript line terminators, so a line terminator before
`close` makes the match fail. -/
def scanCloseDot (close : List Char) : List Char → Option (List Char)
  | [] => none
  | c :: rest =>
    if ciStartsWith close (c :: rest) then some []
    else if c = '\n' || c = '\r' || c.toNat = 8232 || c.toNat = 8233 then none
    else
      match scanCloseDot close rest with
      | some inner => some (c :: inner)
      | none => none

/-- Fuel-indexed worker for `itemMatches`; the fuel starts at the string length
and strictly dominates the characters consumed, so it never runs out. -/
def itemMatchesAux : Nat → List Char → List (List Char × List Char)
  | 0, _ => []
  | _ + 1, [] => []
  | fuel + 1, c :: rest =>
    if ciStartsWith (str "<item") (c :: rest) then
      match afterFirstGt ((c :: rest).drop 5) with
      | some afterGt =>
        match scanCloseAny (str "</item>") afterGt with
        | some (inner, after) =>
          ((c :: rest).take ((c :: rest).length - after.length), inner)
            :: itemMatchesAux fuel after
        | none => itemMatchesAux fuel rest
      | none => itemMatchesAux fuel rest
    else itemMatchesAux fuel rest

/-- All matches of the global regex `/<item[^>]*>([\s\S]*?)<\/item>/gi`, in
order, as (whole match, captured inner content) pairs; this single matcher
underlies both `parseRSSFeed` (which uses the whole match) and `parseRSSItems`
(which uses the capture group). -/
def itemMatches (l : List Char) : List (List Char × List Char) :=
  itemMatchesAux l.length l

/-- First match of `/<open[^>]*>(.*?)<\/close>/i` over a string, returning the
captured group — the shape of the `title`, `link` and `description` regexes in
the master router's `parseRSSFeed`. -/
def findTagLazy (openLit close : List Char) : List Char → Option (List Char)
  | [] => none
  | c :: rest =>
    if ciStartsWith openLit (c :: rest) then
      match afterFirstGt ((c :: rest).drop openLit.length) with
      | some afterGt =>
        match scanCloseDot close afterGt with
        | some inner => some inner
        | none => findTagLazy openLit close rest
      | none => findTagLazy openLit close rest
    else findTagLazy openLit close rest

/-- Alternative 1 of the `title`/`description` regexes of `parseRSSItems`:
`<![CDATA[([^\]]+)]]>` followed by the closing tag, applied just after the `>`
of the opening tag. -/
def tryCdataAlt (tag : List Char) (afterGt : List Char) : Option (List Char) :=
  if ciStartsWith (str "<![cdata[") afterGt then
    let body := (afterGt.drop 9).takeWhile (fun c => c ≠ ']')
    if body.isEmpty then none
    else if ciStartsWith (str "]]></" ++ tag ++ [ '>' ]) ((afterGt.drop 9).drop body.length) then
      some body
    else none
  else none

/-- Alternative 2: a plain nonempty text body `([^<]+)` followed by the closing
tag. -/
def tryTextAlt (tag : List Char) (afterGt : List Char) : Option (List Char) :=
  let body := afterGt.takeWhile (fun c => c ≠ '<')
  if body.isEmpty then none
  else if ciStartsWith (str "</" ++ tag ++ [ '>' ]) (afterGt.drop body.length) then
    some body
  else none

/-- First match of
`<tag[^>]*><!\[CDATA\[([^\]]+)\]\]><\/tag>|<tag[^>]*>([^<]+)<\/tag>` (flag `i`),
returning the captured group, as `parseRSSItems` uses for `title` and
`description` (`titleMatch[1] || titleMatch[2]`). -/
def findTagCdataOrText (tag : List Char) : List Char → Option (List Char)
  | [] => none
  | c :: rest =>
    if ciStartsWith ('<' :: tag) (c :: rest) then
      match afterFirstGt ((c :: rest).drop (tag.length + 1)) with
      | some afterGt =>
        match tryCdataAlt tag afterGt with
        | some body => some body
        | none =>
          match tryTextAlt tag afterGt with
          | some body => some body
          | none => findTagCdataOrText tag rest
      | none => findTagCdataOrText tag rest
    else findTagCdataOrText tag rest

/-- First match of `<tag[^>]*>([^<]+)<\/tag>` (flag `i`), as `parseRSSItems`
uses for `link`. -/
def findTagText (tag : List Char) : List Char → Option (List Char)
  | [] => none
  | c :: rest =>
    if ciStartsWith ('<' :: tag) (c :: rest) then
      match afterFirstGt ((c :: rest).drop (tag.length + 1)) with
      | some afterGt =>
        match tryTextAlt tag afterGt with
        | some body => some body
        | none => findTagText tag rest
      | none => findTagText tag rest
    else findTagText tag rest

/-- JavaScript whitespace (the code points relevant to `String.prototype.trim`
for feed text). -/
def isJsWs (c : Char) : Bool :=
  c = ' ' || c = '\t' || c = '\n' || c = '\r' ||
    c.toNat = 11 || c.toNat = 12 || c.toNat = 160 || c.toNat = 65279

/-- Model of `String.prototype.trim`. -/
def trim (l : List Char) : List Char :=
  ((l.dropWhile isJsWs).reverse.dropWhile isJsWs).reverse

/-- Fuel-indexed worker for `stripTags`. -/
def stripTagsAux : Nat → List Char → List Char
  | 0, l => l
  | _ + 1, [] => []
  | fuel + 1, c :: rest =>
    if c = '<' then
      match rest.dropWhile (fun d => d ≠ '>') with
      | [] => c :: stripTagsAux fuel rest
      | _ :: t => stripTagsAux fuel t
    else c :: stripTagsAux fuel rest

/-- Global replacement `.replace(/<[^>]*>/g, '')` of `cleanHtml`: drop each
`<...>` span up to its first `>`; a `<` with no later `>` starts no match. -/
def stripTags (l : List Char) : List Char :=
  stripTagsAux l.length l

/-- Fuel-indexed worker for `collapseEntities`. -/
def collapseEntitiesAux : Nat → List Char → List Char
  | 0, l => l
  | _ + 1, [] => []
  | fuel + 1, c :: rest =>
    if c = '&' then
      match rest with
      | [] => [c]
      | d :: _ =>
        if d = ';' then c :: collapseEntitiesAux fuel rest
        else
          match rest.dropWhile (fun e => e ≠ ';') with
          | [] => c :: collapseEntitiesAux fuel rest
          | _ :: t => ' ' :: collapseEntitiesAux fuel t
    else c :: collapseEntitiesAux fuel rest

/-- Global replacement `.replace(/&[^;]+;/g, ' ')` of `cleanHtml`: each
`&...;` span with a nonempty body collapses to one space. -/
def collapseEntities (l : List Char) : List Char :=
  collapseEntitiesAux l.length l

/-- `cleanHtml` from the master router: strip tags, collapse entities to a
space, trim. -/
def cleanHtml (l : List Char) : List Char :=
  trim (collapseEntities (stripTags l))

/-- Model of `String.prototype.replace` with a string pattern and empty
replacement: remove the first occurrence of `pat`, scanning left to right. -/
def jsReplaceFirst (pat : List Char) : List Char → List Char
  | [] => []
  | c :: rest =>
    if pat.isPrefixOf (c :: rest) then (c :: rest).drop pat.length
    else c :: jsReplaceFirst pat rest

/-- `extractDomain` from the master router (lines 406-412).  `new URL(url).hostname`
is a platform builtin, modelled by the oracle `parseURL` (`none` = the
constructor throws); the `try { } catch { return 'Unknown' }` of the source
becomes the `Option` match, and the code removes the first occurrence of
`"www."` via `.replace('www.', '')`. -/
def extractDomain (parseURL : List Char → Option (List Char)) (url : List Char) : List Char :=
  match parseURL url with
  | some hostname => jsReplaceFirst (str "www.") hostname
  | none => str "Unknown"

/-- The excerpt construction of `parseRSSFeed` (master router, line 380):
`descMatch ? cleanHtml(descMatch[1]).substring(0, 200) + '...' : ''`. -/
def mkExcerptOf : Option (List Char) → List Char
  | some desc => (cleanHtml desc).take 200 ++ str "..."
  | none => []

/-- `parseRSSFeed` from the master router (lines 366-387): up to `maxItems`
item blocks; items missing title or link are dropped; the `link` field is
trimmed while `extractDomain` receives the raw captured link. -/
def parseRSSFeed (parseURL : List Char → Option (List Char)) (xmlText : List Char)
    (maxItems : Nat) : List RItem :=
  ((itemMatches xmlText).take maxItems).filterMap (fun m =>
    let item := m.1
    match findTagLazy (str "<title") (str "</title>") item,
          findTagLazy (str "<link") (str "</link>") item with
    | some titleBody, some linkBody =>
      some ⟨cleanHtml titleBody, trim linkBody,
            mkExcerptOf (findTagLazy (str "<description") (str "</description>") item),
            extractDomain parseURL linkBody⟩
    | _, _ => none)

/-- `parseRSSItems` from `src/content-sourcer.js` (lines 305-332): every item
block; raw captured fields, CDATA-aware title/description, missing description
becomes the empty string. -/
def parseRSSItems (rssText : List Char) : List SItem :=
  (itemMatches rssText).filterMap (fun m =>
    let itemContent := m.2
    match findTagCdataOrText (str "title") itemContent,
          findTagText (str "link") itemContent with
    | some titleBody, some linkBody =>
      some ⟨titleBody, linkBody, (findTagCdataOrText (str "description") itemContent).getD []⟩
    | _, _ => none)

/-- A group of accepted items a single feed contributes to a stored batch
(the objects `handleSourceContent` pushes, lines 201-205). -/
structure SourceGroup where
  source : List Char
  category : List Char
  items : List SItem
  deriving DecidableEq

/-- One `<li>` entry of the digest (`generateDraftHTML`, lines 368-374); a
truthy (nonempty) description adds a truncated sub-line. -/
def itemLi (item : SItem) : List Char :=
  str "<li><a href=\"" ++ item.link ++ str "\" target=\"_blank\">" ++ item.title ++ str "</a>"
    ++ (if item.description.isEmpty then []
        else str "<br><small>" ++ item.description.take 150 ++ str "...</small>")
    ++ str "</li>\n"

/-- The digest section one source contributes (`generateDraftHTML`,
lines 364-378): empty when the source has no items. -/
def sectionHTML (source : SourceGroup) : List Char :=
  if 0 < source.items.length then
    str "<h2>" ++ source.source ++ str " - " ++ source.category ++ str "</h2>\n<ul>\n"
      ++ source.items.foldl (fun acc item => acc ++ itemLi item) []
      ++ str "</ul>\n\n"
  else []

/-- The fixed opening of the digest: `<h1>` title and byline paragraph
(`generateDraftHTML`, line 362). -/
def draftHeader (title : List Char) : List Char :=
  str "<h1>" ++ title
    ++ str "</h1>\n<p><em>A curated collection of Good Vibes from around LA</em></p>\n\n"

/-- The fixed closing attribution line of the digest (`generateDraftHTML`,
line 380). -/
def draftFooter : List Char :=
  str "<hr>\n<p><small>🤖 <em>A project curated by Humans x AI at <a href=\"https://curations.cc\">Curations.cc</a></em></small></p>"

/-- `generateDraftHTML` from `src/content-sourcer.js` (lines 361-383); the
`forEach` accumulation on `html` becomes a fold appending each source's
section, and the returned object `{ title, html }` becomes a pair. -/
def generateDraftHTML (content : List SourceGroup) (title : List Char) :
    List Char × List Char :=
  (title,
    content.foldl (fun acc source => acc ++ sectionHTML source) (draftHeader title)
      ++ draftFooter)

/-- A feed entry of `config/sources.json` (`rss_feeds`): the fields
`handleSourceContent` uses besides the fetched URL. -/
structure Feed where
  name : List Char
  category : List Char
  deriving DecidableEq

/-- The per-feed loop of `handleSourceContent` in `src/content-sourcer.js`
(lines 192-209): each feed is paired with the outcome of fetching its body
(`none` = `fetch`/`text()` threw; the `catch` logs and pushes nothing), and
each successful feed contributes its parsed, good-vibes-filtered items capped
at 5.  The resulting group list is what the run serialises and stores. -/
def handleSourceContentGroups (cfg : SourcesConfig)
    (fetches : List (Feed × Option (List Char))) : List SourceGroup :=
  fetches.filterMap (fun fr =>
    fr.2.map (fun rssText =>
      ⟨fr.1.name, fr.1.category, (filterGoodVibesContent cfg (parseRSSItems rssText)).take 5⟩))

/-- The item-collection loop of the master router's `handleSourceContent`
(lines 199-208): per-feed fetch outcomes in feed order, a failed feed
contributing nothing; `maxPerFeed` is `Math.ceil(maxItems / sourcesToFetch.length)`,
computed by the caller from the full feed list. -/
def collectFeedItems (parseURL : List Char → Option (List Char)) (maxPerFeed : Nat)
    (results : List (Option (List Char))) : List RItem :=
  results.flatMap (fun r =>
    match r with
    | some xmlText => parseRSSFeed parseURL xmlText maxPerFeed
    | none => [])

/-- Specification-side reading of C8: remove `"www."` only as a leading
prefix of the hostname, leaving it otherwise unmodified. -/
def stripLeadingWww (hostname : List Char) : List Char :=
  if (str "www.").isPrefixOf hostname then hostname.drop 4 else hostname

/-- Hostname oracle fixture: the platform URL parser restricted to one link
whose hostname legitimately contains a non-leading `"www."` label. -/
def hostOracleA : List Char → Option (List Char) :=
  fun url => if url = str "https://foo.www.bar.com/" then some (str "foo.www.bar.com") else none

/-- Hostname oracle fixture: the platform URL parser restricted to one link
with a leading `"www."` hostname. -/
def hostOracleB : List Char → Option (List Char) :=
  fun url => if url = str "https://www.laist.com/a" then some (str "www.laist.com") else none

/-- Feed text fixture: one well-formed item whose description is only two
characters long. -/
def xmlShortDesc : List Char :=
  str "<item><title>T</title><link>http://x</link><description>hi</description></item>"

/-- Malformed feed fixture: contains `<item` but no closing `</item>`. -/
def xmlGarbage : List Char := str "<<<not rss <item unclosed"

/-- A source group with no accepted items. -/
def groupEmpty : SourceGroup := ⟨str "A", str "Eats", []⟩

/-! Ghost Admin API token minting (`generateGhostJWT`, lines 331-356 of the
master router, identical at lines 407-432 of `src/content-sourcer.js`).
`btoa`, `JSON.stringify` and `Date.now()` are platform builtins, modelled
respectively by an explicit base64 encoder over byte values with an `Option`
guard for characters above U+00FF (on which `btoa` throws), a JSON serialiser
for the two concrete object shapes the code builds, and a `nowMs` parameter
(the two `Date.now()` calls of the source are coalesced into one instant). -/

/-- The standard base64 alphabet. -/
def b64Alphabet : List Char :=
  str "ABCDEFGHIJKLMNOPQRSTUVWXYZabcdefghijklmnopqrstuvwxyz0123456789+/"

/-- The `k`-th standard base64 alphabet character. -/
def b64char (k : Nat) : Char := b64Alphabet.getD k 'A'

/-- Standard base64 encoding of a byte sequence with `=` padding, as `btoa`
produces. -/
def b64encode : List Nat → List Char
  | [] => []
  | [a] => [b64char (a / 4), b64char (a % 4 * 16), '=', '=']
  | [a, b] => [b64char (a / 4), b64char (a % 4 * 16 + b / 16), b64char (b % 16 * 4), '=']
  | a :: b :: c :: rest =>
    b64char (a / 4) :: b64char (a % 4 * 16 + b / 16) :: b64char (b % 16 * 4 + c / 64)
      :: b64char (c % 64) :: b64encode rest

/-- Model of `btoa`: the bytes are the code points of the string, all of which
must be at most U+00FF — `btoa` throws otherwise. -/
def btoa (s : List Char) : Option (List Char) :=
  if s.all (fun c => c.toNat ≤ 255) then some (b64encode (s.map Char.toNat)) else none

/-- First substitution of `base64urlEscape`: `.replace(/\+/g, '-')`. -/
def repPlus (c : Char) : Char := if c = '+' then '-' else c

/-- Second substitution of `base64urlEscape`: `.replace(/\//g, '_')`. -/
def repSlash (c : Char) : Char := if c = '/' then '_' else c

/-- `base64urlEscape` (both workers): `+`→`-`, `/`→`_`, all `=` removed. -/
def base64urlEscape (l : List Char) : List Char :=
  ((l.map repPlus).map repSlash).filter (fun c => c != '=')

/-- Hexadecimal digit characters, for the `\u00XX` escapes of
`JSON.stringify`. -/
def hexDigit (n : Nat) : Char := (str "0123456789abcdef").getD n '0'

/-- Decimal digit characters, for JavaScript number-to-string conversion. -/
def digitChar (n : Nat) : Char := (str "0123456789").getD n '0'

/-- Fuel-indexed worker for `natStr`. -/
def natStrAux : Nat → Nat → List Char
  | 0, _ => []
  | fuel + 1, n =>
    if n < 10 then [digitChar n]
    else natStrAux fuel (n / 10) ++ [digitChar (n % 10)]

/-- Decimal rendering of a natural number, as `JSON.stringify` serialises the
`iat`/`exp` payload numbers. -/
def natStr (n : Nat) : List Char := natStrAux (n + 1) n

/-- JSON string-content escaping as `JSON.stringify` performs it. -/
def jsonEscapeChar (c : Char) : List Char :=
  if c = '"' then ['\\', '"']
  else if c = '\\' then ['\\', '\\']
  else if c.toNat = 8 then ['\\', 'b']
  else if c.toNat = 9 then ['\\', 't']
  else if c.toNat = 10 then ['\\', 'n']
  else if c.toNat = 12 then ['\\', 'f']
  else if c.toNat = 13 then ['\\', 'r']
  else if c.toNat < 32 then str "\\u00" ++ [hexDigit (c.toNat / 16), hexDigit (c.toNat % 16)]
  else [c]

/-- JSON string-content escaping over a whole string. -/
def jsonEscape (l : List Char) : List Char := l.flatMap jsonEscapeChar

/-- `JSON.stringify(header)` for `{alg: 'HS256', typ: 'JWT', kid: id}`
(insertion order preserved). -/
def jsonHeaderStr (id : List Char) : List Char :=
  str "\x7b\"alg\":\"HS256\",\"typ\":\"JWT\",\"kid\":\"" ++ jsonEscape id ++ str "\"\x7d"

/-- `JSON.stringify(payload)` for `{iat, exp, aud: '/admin/'}`. -/
def jsonPayloadStr (iat expiry : Nat) : List Char :=
  str "\x7b\"iat\":" ++ natStr iat ++ str ",\"exp\":" ++ natStr expiry
    ++ str ",\"aud\":\"/admin/\"\x7d"

/-- Model of `String.prototype.split` with a single-character separator
(empty segments kept, as in JavaScript). -/
def jsSplit (sep : Char) : List Char → List (List Char)
  | [] => [[]]
  | c :: rest =>
    if c = sep then [] :: jsSplit sep rest
    else
      match jsSplit sep rest with
      | s :: ss => (c :: s) :: ss
      | [] => [[c]]

/-- `generateGhostJWT`: split the admin key at `:`, base64url-encode the JSON
header and payload, and produce the signature segment as
`base64urlEscape(btoa(encodedHeader + '.' + encodedPayload + '.' + secret))` —
a plain unkeyed encoding of the concatenation.  The result is the triple of
token segments; `none` covers the paths on which the source throws (`btoa` on
a character above U+00FF) or the key has no `id:secret` split (on which the
source would interpolate the string "undefined", outside the key form the
claims quantify over). -/
def generateGhostJWT (adminAPIKey : List Char) (nowMs : Nat) :
    Option (List Char × List Char × List Char) :=
  match jsSplit ':' adminAPIKey with
  | id :: secret :: _ =>
    let iat := nowMs / 1000
    let headerJson := jsonHeaderStr id
    let payloadJson := jsonPayloadStr iat (iat + 300)
    match btoa headerJson, btoa payloadJson with
    | some h64, some p64 =>
      let encodedHeader := base64urlEscape h64
      let encodedPayload := base64urlEscape p64
      match btoa (encodedHeader ++ '.' :: encodedPayload ++ '.' :: secret) with
      | some s64 => some (encodedHeader, encodedPayload, base64urlEscape s64)
      | none => none
    | _, _ => none
  | _ => none

/-- The signature (third) segment of a minted token; empty when minting threw. -/
def thirdSegment : Option (List Char × List Char × List Char) → List Char
  | some t => t.2.2
  | none => []

/-- The base64url alphabet (the standard alphabet after `base64urlEscape`'s
substitutions). -/
def b64uAlphabet : List Char :=
  str "ABCDEFGHIJKLMNOPQRSTUVWXYZabcdefghijklmnopqrstuvwxyz0123456789-_"

/-- Index of a character in the base64url alphabet. -/
def b64uVal (c : Char) : Nat := b64uAlphabet.findIdx (fun d => d == c)

/-- Standard base64url decoding without padding — what any token holder can
apply to the signature segment.  This decoder is not repository code; it is
the standard inverse, defined to state what the segment reveals. -/
def b64urlDecode : List Char → List Nat
  | [] => []
  | [_] => []
  | [c1, c2] => [b64uVal c1 * 4 + b64uVal c2 / 16]
  | [c1, c2, c3] =>
    [b64uVal c1 * 4 + b64uVal c2 / 16, b64uVal c2 % 16 * 16 + b64uVal c3 / 4]
  | c1 :: c2 :: c3 :: c4 :: rest =>
    (b64uVal c1 * 4 + b64uVal c2 / 16)
      :: (b64uVal c2 % 16 * 16 + b64uVal c3 / 4)
      :: (b64uVal c3 % 4 * 64 + b64uVal c4)
      :: b64urlDecode rest

/-- Admin key fixture of the form `id:secret`. -/
def adminKeyA : List Char := str "abc123:00ff00ff"

/-- Folding `+1` over keywords, as `filterGoodVibesContent` computes its score,
counts exactly the keywords satisfying the predicate. -/
theorem foldl_score_eq_countP (p : List Char → Bool) (l : List (List Char)) (n : Nat) :
    l.foldl (fun score keyword => if p keyword then score + 1 else score) n
      = n + l.countP p := by
  induction l generalizing n with
  | nil => simp
  | cons a t ih =>
    simp only [List.foldl_cons, List.countP_cons, ih]
    by_cases h : p a = true <;> simp [h] <;> omega

/-- Claim C1, counterexample: an item whose text satisfies both conjuncts of the
claimed acceptance condition (positive-keyword count at least the minimum score,
and a required-locality keyword present) but also contains a banned keyword is
rejected by `filterGoodVibesContent`, so the claimed "accept if and only if the
two conjuncts hold" is false on the code. -/
theorem C1_counterexample :
    cfgA.min_good_vibes_score
        ≤ cfgA.good_vibes_keywords.countP (fun k => containsSub (lower k) (itemText itemBanned))
      ∧ cfgA.required_la_keywords.any (fun k => containsSub (lower k) (itemText itemBanned)) = true
      ∧ filterGoodVibesContent cfgA [itemBanned] = [] := by
  decide

/-- Claim C1 (amended): for an item whose text contains no configured banned
keyword, `filterGoodVibesContent` accepts it if and only if the count of
configured positive keywords occurring as case-insensitive substrings of the
item's lowercase title+description is at least the configured minimum score AND
at least one configured required-locality keyword occurs as a substring of that
text; an item satisfying only one of the two conjuncts is rejected.  (Items
containing a banned keyword are rejected regardless; see C2.) -/
theorem C1_accept_iff_score_and_locality (cfg : SourcesConfig) (items : List SItem)
    (it : SItem) (hmem : it ∈ items)
    (hban : cfg.negative_keywords.any (fun k => containsSub (lower k) (itemText it)) = false) :
    it ∈ filterGoodVibesContent cfg items ↔
      (cfg.min_good_vibes_score
          ≤ cfg.good_vibes_keywords.countP (fun k => containsSub (lower k) (itemText it))
        ∧ cfg.required_la_keywords.any (fun k => containsSub (lower k) (itemText it)) = true) := by
  rw [filterGoodVibesContent, List.mem_filter]
  simp only [hmem, true_and, goodVibesPred, hban, Bool.false_eq_true, if_false,
    foldl_score_eq_countP, Nat.zero_add, Bool.and_eq_true, decide_eq_true_eq]

/-- Witness for C1: evaluating the amended theorem at a concrete configuration and
item, all hypotheses discharged by computation. -/
theorem C1_witness : itemGood ∈ filterGoodVibesContent cfgA [itemGood] :=
  (C1_accept_iff_score_and_locality cfgA [itemGood] itemGood (by decide) (by decide)).mpr
    (by decide)

/-- Claim C2: a banned keyword occurring in the item's lowercase text vetoes the
item in both classifier variants — `filterGoodVibesContent` of
`src/content-sourcer.js` (for every configuration) and the master router's
`filterGoodVibes` (for every random oracle and call counter), regardless of how
many positive or locality keywords also occur. -/
theorem C2_banned_keyword_vetoes :
    (∀ (cfg : SourcesConfig) (items : List SItem) (it : SItem),
        (∃ b ∈ cfg.negative_keywords, containsSub (lower b) (itemText it) = true) →
        it ∉ filterGoodVibesContent cfg items)
    ∧ (∀ (rand : Nat → ℚ) (k : Nat) (items : List RItem) (it : RItem),
        (∃ b ∈ bannedWords, containsSub b (ritemText it) = true) →
        it ∉ filterGoodVibes rand k items) := by
  constructor
  · intro cfg items it hb hmem
    rw [filterGoodVibesContent, List.mem_filter] at hmem
    have hneg : cfg.negative_keywords.any (fun k => containsSub (lower k) (itemText it)) = true :=
      List.any_eq_true.mpr hb
    have : goodVibesPred cfg it = false := by
      simp only [goodVibesPred, hneg, if_true]
    rw [this] at hmem
    exact absurd hmem.2 (by simp)
  · intro rand k items it hb
    induction items generalizing k with
    | nil => simp [filterGoodVibes]
    | cons a t ih =>
      by_cases hba : bannedWords.any (fun word => containsSub word (ritemText a)) = true
      · simpa [filterGoodVibes, hba] using ih k
      · have hne : it ≠ a := by
          rintro rfl
          exact hba (List.any_eq_true.mpr hb)
        by_cases hga : goodWords.any (fun word => containsSub word (ritemText a)) = true
        · simp only [filterGoodVibes, hba, Bool.false_eq_true, if_false, hga, if_true,
            List.mem_cons, not_or]
          exact ⟨hne, ih k⟩
        · by_cases hr : rand k > 3 / 10
          · simp only [filterGoodVibes, hba, Bool.false_eq_true, if_false, hga, hr, if_true,
              List.mem_cons, not_or]
            exact ⟨hne, ih (k + 1)⟩
          · simp only [filterGoodVibes, hba, Bool.false_eq_true, if_false, hga, hr,
              List.mem_cons]
            exact ih (k + 1)

/-- Witness for C2: both veto statements evaluated at concrete banned items. -/
theorem C2_witness :
    itemBanned ∉ filterGoodVibesContent cfgA [itemBanned]
    ∧ ritemBanned ∉ filterGoodVibes (fun _ => 1 / 2) 0 [ritemBanned] :=
  ⟨C2_banned_keyword_vetoes.1 cfgA [itemBanned] itemBanned ⟨str "crime", by decide, by decide⟩,
   C2_banned_keyword_vetoes.2 (fun _ => 1 / 2) 0 [ritemBanned] ritemBanned
     ⟨str "crime", by decide, by decide⟩⟩

/-- Claim C3 (code bug): the master router's `filterGoodVibes` is not
deterministic.  On an item matching neither banned nor positive keywords the
decision is `Math.random() > 0.3`: with a random stream returning 0.5 the item
is kept, with a stream returning 0 it is dropped, so two evaluations on
identical input text and identical keyword configuration yield different
accept/reject decisions.  (The deterministic variant `filterGoodVibesContent`
trivially satisfies the claim as a pure function; the spec itself flags the
randomized fallback as a defect to eliminate.) -/
theorem C3_randomized_fallback_nondeterministic :
    filterGoodVibes (fun _ => 1 / 2) 0 [ritemNeutral]
      ≠ filterGoodVibes (fun _ => 0) 0 [ritemNeutral] := by
  have hb : bannedWords.any (fun word => containsSub word (ritemText ritemNeutral)) = false := by
    decide
  have hg : goodWords.any (fun word => containsSub word (ritemText ritemNeutral)) = false := by
    decide
  have h1 : filterGoodVibes (fun _ => 1 / 2) 0 [ritemNeutral] = [ritemNeutral] := by
    simp only [filterGoodVibes, hb, hg, Bool.false_eq_true, if_false]
    norm_num
  have h2 : filterGoodVibes (fun _ => 0) 0 [ritemNeutral] = [] := by
    simp only [filterGoodVibes, hb, hg, Bool.false_eq_true, if_false]
    norm_num
  rw [h1, h2]
  simp

/-- Accumulating a list-valued function with `++` over a fold, as the digest
composer does, concatenates the per-element results after the initial value. -/
theorem foldl_append_eq (f : α → List β) (l : List α) (init : List β) :
    l.foldl (fun acc a => acc ++ f a) init = init ++ (l.map f).flatten := by
  induction l generalizing init with
  | nil => simp
  | cons a t ih => simp [ih, List.append_assoc]

/-- Claim C9: the composed digest contains an `<h2>` section for a source if
and only if that source has at least one accepted item: the digest is exactly
header ++ per-source sections ++ footer, a source's section is empty iff its
item list is empty, a nonempty source's section starts with its `<h2>`
heading, and a batch whose sources all have zero items composes to the `<h1>`
title and byline followed directly by the closing attribution line. -/
theorem C9_sections_iff_items (title : List Char) (content : List SourceGroup) :
    (generateDraftHTML content title).2
        = draftHeader title ++ (content.map sectionHTML).flatten ++ draftFooter
    ∧ (∀ source ∈ content, (sectionHTML source = [] ↔ source.items = []))
    ∧ (∀ source ∈ content, source.items ≠ [] →
        sectionHTML source
          = str "<h2>" ++ source.source ++ str " - " ++ source.category
              ++ str "</h2>\n<ul>\n" ++ (source.items.map itemLi).flatten ++ str "</ul>\n\n")
    ∧ ((∀ source ∈ content, source.items = []) →
        (generateDraftHTML content title).2 = draftHeader title ++ draftFooter) := by
  have hfold := foldl_append_eq sectionHTML content (draftHeader title)
  have hsec : ∀ source : SourceGroup, source.items ≠ [] →
      sectionHTML source
        = str "<h2>" ++ source.source ++ str " - " ++ source.category
            ++ str "</h2>\n<ul>\n" ++ (source.items.map itemLi).flatten ++ str "</ul>\n\n" := by
    intro s hne
    have hlen : 0 < s.items.length := List.length_pos.mpr hne
    rw [sectionHTML, if_pos hlen, foldl_append_eq itemLi s.items []]
    simp
  refine ⟨by simp [generateDraftHTML, hfold, List.append_assoc], ?_, fun s _ => hsec s, ?_⟩
  · intro s _
    constructor
    · intro he
      by_contra hne
      rw [hsec s hne, show str "<h2>" = '<' :: str "h2>" from rfl] at he
      simp at he
    · intro he
      rw [sectionHTML]
      simp [he]
  · intro hall
    have hnil : (content.map sectionHTML).flatten = [] := by
      rw [List.flatten_eq_nil_iff]
      intro x hx
      rcases List.mem_map.mp hx with ⟨s, hs, rfl⟩
      rw [sectionHTML]
      simp [hall s hs]
    rw [generateDraftHTML]
    simp only [hfold, hnil, List.append_nil]

/-- Witness for C9: a batch whose only source has zero accepted items composes
to header ++ footer with no section. -/
theorem C9_witness :
    (generateDraftHTML [groupEmpty] (str "T")).2 = draftHeader (str "T") ++ draftFooter :=
  (C9_sections_iff_items (str "T") [groupEmpty]).2.2.2 (by decide)

/-- Claim C6: in both workers' sourcing loops a failed feed (fetch outcome
`none`, i.e. the `fetch` or body read threw and the per-feed `catch` ran)
contributes nothing, and the run's collected result equals the result over the
remaining feeds, each other feed's contribution unchanged; the run itself
still produces a result. -/
theorem C6_feed_failure_isolated :
    (∀ (cfg : SourcesConfig) (ps₁ ps₂ : List (Feed × Option (List Char))) (f : Feed),
        handleSourceContentGroups cfg (ps₁ ++ (f, none) :: ps₂)
          = handleSourceContentGroups cfg (ps₁ ++ ps₂))
    ∧ (∀ (parseURL : List Char → Option (List Char)) (maxPerFeed : Nat)
        (rs₁ rs₂ : List (Option (List Char))),
        collectFeedItems parseURL maxPerFeed (rs₁ ++ none :: rs₂)
          = collectFeedItems parseURL maxPerFeed (rs₁ ++ rs₂)) := by
  constructor
  · intro cfg ps₁ ps₂ f
    simp [handleSourceContentGroups, List.filterMap_append]
  · intro parseURL maxPerFeed rs₁ rs₂
    simp [collectFeedItems]

/-- Claim C7, counterexample: a two-character description is not truncated,
yet the stored excerpt still carries the trailing ellipsis marker, so "a
trailing ellipsis marker is appended if and only if the cleaned description
was actually longer than 200 characters" is false on the code. -/
theorem C7_counterexample :
    parseRSSFeed (fun _ => none) xmlShortDesc 5
        = [⟨str "T", str "http://x", str "hi...", str "Unknown"⟩]
    ∧ (cleanHtml (str "hi")).length ≤ 200
    ∧ str "hi..." ≠ cleanHtml (str "hi") := by
  decide

/-- Claim C7 (amended): for every extracted item, the stored excerpt is either
empty (no description matched) or the description cleaned by `cleanHtml`
(HTML tags stripped, entities collapsed to a space, trimmed), truncated to 200
characters, with the three-character ellipsis marker appended unconditionally
— even when no truncation occurred — for a total length of at most 203. -/
theorem C7_excerpt_shape (parseURL : List Char → Option (List Char))
    (xmlText : List Char) (maxItems : Nat) (it : RItem)
    (hmem : it ∈ parseRSSFeed parseURL xmlText maxItems) :
    (∃ desc, it.excerpt = (cleanHtml desc).take 200 ++ str "..."
        ∧ it.excerpt.length ≤ 203)
      ∨ it.excerpt = [] := by
  rw [parseRSSFeed] at hmem
  rcases List.mem_filterMap.mp hmem with ⟨m, hm, heq⟩
  dsimp only at heq
  rcases h1 : findTagLazy (str "<title") (str "</title>") m.1 with _ | titleBody <;>
    rw [h1] at heq
  · exact absurd heq (by simp)
  rcases h2 : findTagLazy (str "<link") (str "</link>") m.1 with _ | linkBody <;>
    rw [h2] at heq
  · exact absurd heq (by simp)
  simp only [Option.some.injEq] at heq
  rcases h3 : findTagLazy (str "<description") (str "</description>") m.1 with _ | descBody <;>
    rw [h3] at heq <;> rw [← heq]
  · right
    rfl
  · left
    refine ⟨descBody, rfl, ?_⟩
    show ((cleanHtml descBody).take 200 ++ str "...").length ≤ 203
    rw [List.length_append, List.length_take]
    have : (str "...").length = 3 := by decide
    omega

/-- Witness for C7: the amended excerpt-shape theorem applied to the item
extracted from the short-description fixture. -/
theorem C7_witness :
    (∃ desc, (⟨str "T", str "http://x", str "hi...", str "Unknown"⟩ : RItem).excerpt
          = (cleanHtml desc).take 200 ++ str "..."
        ∧ (⟨str "T", str "http://x", str "hi...", str "Unknown"⟩ : RItem).excerpt.length ≤ 203)
      ∨ (⟨str "T", str "http://x", str "hi...", str "Unknown"⟩ : RItem).excerpt = [] :=
  C7_excerpt_shape (fun _ => none) xmlShortDesc 5 _ (by decide)

/-- Removing the first occurrence of `pat` leaves a pattern-free string
unchanged. -/
theorem jsReplaceFirst_of_not_contains {pat l : List Char}
    (h : containsSub pat l = false) : jsReplaceFirst pat l = l := by
  induction l with
  | nil => rfl
  | cons c rest ih =>
    rw [containsSub, Bool.or_eq_false_iff] at h
    rw [jsReplaceFirst, if_neg (by simp [h.1]), ih h.2]

/-- Removing the first occurrence of `pat` from a string starting with `pat`
drops exactly that prefix. -/
theorem jsReplaceFirst_of_isPrefixOf {pat l : List Char} (hne : pat ≠ [])
    (h : pat.isPrefixOf l = true) : jsReplaceFirst pat l = l.drop pat.length := by
  cases l with
  | nil =>
    cases pat with
    | nil => exact absurd rfl hne
    | cons p ps => simp [List.isPrefixOf] at h
  | cons c rest => rw [jsReplaceFirst, if_pos h]

/-- Claim C8 counterexample: for a link whose hostname contains a non-leading
`"www."` label, `extractDomain` removes that inner occurrence, so the derived
domain is neither the hostname with only a leading `"www."` prefix removed
(which here is the unmodified hostname) nor the sentinel `"Unknown"`. -/
theorem C8_counterexample :
    extractDomain hostOracleA (str "https://foo.www.bar.com/") = str "foo.bar.com"
    ∧ str "foo.bar.com" ≠ stripLeadingWww (str "foo.www.bar.com")
    ∧ str "foo.bar.com" ≠ str "Unknown" := by
  decide

/-- Claim C8 (amended): `extractDomain` never throws and yields either the
sentinel `"Unknown"` (when the platform URL parser fails on the link) or the
parsed hostname with the first occurrence of the substring `"www."` — wherever
it occurs, not only as a leading prefix — removed; in particular a hostname
starting with `"www."` loses that prefix and a hostname not containing
`"www."` at all is returned unmodified. -/
theorem C8_domain_derivation (parseURL : List Char → Option (List Char)) (url : List Char) :
    (parseURL url = none → extractDomain parseURL url = str "Unknown")
    ∧ (∀ hostname, parseURL url = some hostname →
        extractDomain parseURL url = jsReplaceFirst (str "www.") hostname
        ∧ ((str "www.").isPrefixOf hostname = true →
            jsReplaceFirst (str "www.") hostname = hostname.drop 4)
        ∧ (containsSub (str "www.") hostname = false →
            jsReplaceFirst (str "www.") hostname = hostname)) := by
  constructor
  · intro h
    rw [extractDomain, h]
  · intro hostname h
    refine ⟨by rw [extractDomain, h], ?_, jsReplaceFirst_of_not_contains⟩
    intro hp
    exact jsReplaceFirst_of_isPrefixOf (by decide) hp

/-- Witness for C8: the amended derivation theorem applied to a link with a
leading-`"www."` hostname strips exactly that prefix. -/
theorem C8_witness :
    extractDomain hostOracleB (str "https://www.laist.com/a") = str "laist.com" := by
  obtain ⟨-, h⟩ := C8_domain_derivation hostOracleB (str "https://www.laist.com/a")
  obtain ⟨ha, hb, -⟩ := h (str "www.laist.com") (by decide)
  rw [ha, hb (by decide)]
  decide

/-- Claim C10: both extractors are total functions returning a (possibly
empty) item list — a thrown exception has no counterpart in the embedding —
and when the input contains no well-formed item block they degrade to zero
items rather than failing; `parseRSSFeed` moreover never exceeds its cap. -/
theorem C10_extractor_degrades (s : List Char)
    (parseURL : List Char → Option (List Char)) (maxItems : Nat) :
    (itemMatches s = [] →
        parseRSSFeed parseURL s maxItems = [] ∧ parseRSSItems s = [])
    ∧ (parseRSSFeed parseURL s maxItems).length ≤ maxItems := by
  constructor
  · intro h
    rw [parseRSSFeed, parseRSSItems, h]
    simp
  · rw [parseRSSFeed]
    calc (((itemMatches s).take maxItems).filterMap _).length
        ≤ ((itemMatches s).take maxItems).length := List.length_filterMap_le _ _
      _ ≤ maxItems := List.length_take_le _ _

/-- Witness for C10: a malformed input with an unclosed `<item` yields zero
items from both extractors. -/
theorem C10_witness :
    parseRSSFeed (fun _ => none) xmlGarbage 5 = [] ∧ parseRSSItems xmlGarbage = [] :=
  (C10_extractor_degrades xmlGarbage (fun _ => none) 5).1 (by decide)

/-- Characters emitted by the escaped base64 encoder are never `=`, are
single-byte, and are never `.`. -/
theorem b64char_esc_facts (k : Nat) :
    repSlash (repPlus (b64char k)) ≠ '='
      ∧ (repSlash (repPlus (b64char k))).toNat < 256
      ∧ repSlash (repPlus (b64char k)) ≠ '.' := by
  by_cases hk : k < 64
  · have h : ∀ j, j < 64 → repSlash (repPlus (b64char j)) ≠ '='
        ∧ (repSlash (repPlus (b64char j))).toNat < 256
        ∧ repSlash (repPlus (b64char j)) ≠ '.' := by decide
    exact h k hk
  · have hb : b64char k = 'A' := by
      rw [b64char, List.getD_eq_default]
      have : b64Alphabet.length = 64 := by decide
      omega
    rw [hb]
    decide

/-- One step of `base64urlEscape` over a cons cell. -/
theorem esc_cons (c : Char) (l : List Char) :
    base64urlEscape (c :: l)
      = if repSlash (repPlus c) = '=' then base64urlEscape l
        else repSlash (repPlus c) :: base64urlEscape l := by
  by_cases h : repSlash (repPlus c) = '=' <;>
    simp [base64urlEscape, List.filter_cons, h]

/-- Length of the unpadded base64url encoding of a byte sequence. -/
theorem escape_encode_length (l : List Nat) :
    (base64urlEscape (b64encode l)).length = (4 * l.length + 2) / 3 := by
  have he : repSlash (repPlus '=') = '=' := by decide
  have h0 : base64urlEscape ([] : List Char) = [] := rfl
  induction l using b64encode.induct with
  | case1 => rfl
  | case2 a =>
    rw [b64encode, esc_cons, if_neg (b64char_esc_facts _).1, esc_cons,
      if_neg (b64char_esc_facts _).1, esc_cons, if_pos he, esc_cons, if_pos he, h0]
    simp
  | case3 a b =>
    rw [b64encode, esc_cons, if_neg (b64char_esc_facts _).1, esc_cons,
      if_neg (b64char_esc_facts _).1, esc_cons, if_neg (b64char_esc_facts _).1,
      esc_cons, if_pos he, h0]
    simp
  | case4 a b c rest ih =>
    rw [b64encode, esc_cons, if_neg (b64char_esc_facts _).1, esc_cons,
      if_neg (b64char_esc_facts _).1, esc_cons, if_neg (b64char_esc_facts _).1,
      esc_cons, if_neg (b64char_esc_facts _).1]
    simp only [List.length_cons, ih]
    omega

/-- The escaped encoder is inverted on sextet images of the url alphabet. -/
theorem b64uVal_esc (k : Nat) (hk : k < 64) :
    b64uVal (repSlash (repPlus (b64char k))) = k := by
  have h : ∀ j, j < 64 → b64uVal (repSlash (repPlus (b64char j))) = j := by decide
  exact h k hk

/-- Standard base64url decoding inverts the escaped padded encoding on byte
sequences. -/
theorem b64urlDecode_escape_encode (l : List Nat) (hl : ∀ b ∈ l, b < 256) :
    b64urlDecode (base64urlEscape (b64encode l)) = l := by
  have he : repSlash (repPlus '=') = '=' := by decide
  have h0 : base64urlEscape ([] : List Char) = [] := rfl
  induction l using b64encode.induct with
  | case1 => rfl
  | case2 a =>
    have ha : a < 256 := hl a (by simp)
    rw [b64encode, esc_cons, if_neg (b64char_esc_facts _).1, esc_cons,
      if_neg (b64char_esc_facts _).1, esc_cons, if_pos he, esc_cons, if_pos he, h0,
      b64urlDecode, b64uVal_esc _ (by omega), b64uVal_esc _ (by omega)]
    simp only [List.cons.injEq, and_true]
    omega
  | case3 a b =>
    have ha : a < 256 := hl a (by simp)
    have hb : b < 256 := hl b (by simp)
    rw [b64encode, esc_cons, if_neg (b64char_esc_facts _).1, esc_cons,
      if_neg (b64char_esc_facts _).1, esc_cons, if_neg (b64char_esc_facts _).1,
      esc_cons, if_pos he, h0, b64urlDecode, b64uVal_esc _ (by omega),
      b64uVal_esc _ (by omega), b64uVal_esc _ (by omega)]
    simp only [List.cons.injEq, and_true]
    omega
  | case4 a b c rest ih =>
    have ha : a < 256 := hl a (by simp)
    have hb : b < 256 := hl b (by simp)
    have hc : c < 256 := hl c (by simp)
    rw [b64encode, esc_cons, if_neg (b64char_esc_facts _).1, esc_cons,
      if_neg (b64char_esc_facts _).1, esc_cons, if_neg (b64char_esc_facts _).1,
      esc_cons, if_neg (b64char_esc_facts _).1, b64urlDecode,
      b64uVal_esc _ (by omega), b64uVal_esc _ (by omega), b64uVal_esc _ (by omega),
      b64uVal_esc _ (by omega), ih (fun x hx => hl x (by simp [hx]))]
    simp only [List.cons.injEq, and_true]
    omega

/-- Every character of the escaped encoding comes from the escaped alphabet. -/
theorem mem_escape_encode {c : Char} {l : List Nat}
    (h : c ∈ base64urlEscape (b64encode l)) :
    ∃ k, c = repSlash (repPlus (b64char k)) := by
  have he : repSlash (repPlus '=') = '=' := by decide
  have h0 : base64urlEscape ([] : List Char) = [] := rfl
  induction l using b64encode.induct with
  | case1 =>
    simp [b64encode, base64urlEscape] at h
  | case2 a =>
    rw [b64encode, esc_cons, if_neg (b64char_esc_facts _).1, esc_cons,
      if_neg (b64char_esc_facts _).1, esc_cons, if_pos he, esc_cons, if_pos he, h0] at h
    simp only [List.mem_cons, List.not_mem_nil, or_false] at h
    rcases h with rfl | rfl
    · exact ⟨_, rfl⟩
    · exact ⟨_, rfl⟩
  | case3 a b =>
    rw [b64encode, esc_cons, if_neg (b64char_esc_facts _).1, esc_cons,
      if_neg (b64char_esc_facts _).1, esc_cons, if_neg (b64char_esc_facts _).1,
      esc_cons, if_pos he, h0] at h
    simp only [List.mem_cons, List.not_mem_nil, or_false] at h
    rcases h with rfl | rfl | rfl
    · exact ⟨_, rfl⟩
    · exact ⟨_, rfl⟩
    · exact ⟨_, rfl⟩
  | case4 a b c rest ih =>
    rw [b64encode, esc_cons, if_neg (b64char_esc_facts _).1, esc_cons,
      if_neg (b64char_esc_facts _).1, esc_cons, if_neg (b64char_esc_facts _).1,
      esc_cons, if_neg (b64char_esc_facts _).1] at h
    simp only [List.mem_cons] at h
    rcases h with rfl | rfl | rfl | rfl | h
    · exact ⟨_, rfl⟩
    · exact ⟨_, rfl⟩
    · exact ⟨_, rfl⟩
    · exact ⟨_, rfl⟩
    · exact ih h

/-- Characters of the escaped encoding are single-byte. -/
theorem escape_encode_byte {c : Char} {l : List Nat}
    (h : c ∈ base64urlEscape (b64encode l)) : c.toNat < 256 := by
  obtain ⟨k, rfl⟩ := mem_escape_encode h
  exact (b64char_esc_facts k).2.1

/-- Characters of the escaped encoding are never a dot. -/
theorem escape_encode_ne_dot {c : Char} {l : List Nat}
    (h : c ∈ base64urlEscape (b64encode l)) : c ≠ '.' := by
  obtain ⟨k, rfl⟩ := mem_escape_encode h
  exact (b64char_esc_facts k).2.2

/-- Splitting a separator-free string yields the single whole segment. -/
theorem jsSplit_no_sep (sep : Char) (b : List Char) (hb : ∀ c ∈ b, c ≠ sep) :
    jsSplit sep b = [b] := by
  induction b with
  | nil => rfl
  | cons c rest ih =>
    rw [jsSplit, if_neg (hb c (by simp)), ih (fun x hx => hb x (by simp [hx]))]

/-- Splitting at the first separator after a separator-free prefix peels off
that prefix as the first segment. -/
theorem jsSplit_sep_append (sep : Char) (a b : List Char) (ha : ∀ c ∈ a, c ≠ sep) :
    jsSplit sep (a ++ sep :: b) = a :: jsSplit sep b := by
  induction a with
  | nil => rw [List.nil_append, jsSplit, if_pos rfl]
  | cons c rest ih =>
    rw [List.cons_append, jsSplit, if_neg (ha c (by simp)),
      ih (fun x hx => ha x (by simp [hx]))]

/-- Decimal digit characters are single-byte. -/
theorem digitChar_byte (n : Nat) : (digitChar n).toNat < 256 := by
  by_cases hn : n < 10
  · have h : ∀ j, j < 10 → (digitChar j).toNat < 256 := by decide
    exact h n hn
  · rw [digitChar, List.getD_eq_default]
    · decide
    · have : (str "0123456789").length = 10 := by decide
      omega

/-- Hexadecimal digit characters are single-byte. -/
theorem hexDigit_byte (n : Nat) : (hexDigit n).toNat < 256 := by
  by_cases hn : n < 16
  · have h : ∀ j, j < 16 → (hexDigit j).toNat < 256 := by decide
    exact h n hn
  · rw [hexDigit, List.getD_eq_default]
    · decide
    · have : (str "0123456789abcdef").length = 16 := by decide
      omega

/-- Characters of a rendered decimal number are single-byte. -/
theorem natStrAux_byte (fuel : Nat) : ∀ (n : Nat) {c : Char},
    c ∈ natStrAux fuel n → c.toNat < 256 := by
  induction fuel with
  | zero => intro n c h; exact absurd h (List.not_mem_nil c)
  | succ fuel ih =>
    intro n c h
    rw [natStrAux] at h
    by_cases hn : n < 10
    · rw [if_pos hn] at h
      simp only [List.mem_singleton] at h
      exact h ▸ digitChar_byte n
    · rw [if_neg hn] at h
      rcases List.mem_append.mp h with h | h
      · exact ih _ h
      · simp only [List.mem_singleton] at h
        exact h ▸ digitChar_byte _

/-- JSON escaping preserves single-byteness. -/
theorem jsonEscapeChar_byte {c : Char} (hc : c.toNat < 256) :
    ∀ d ∈ jsonEscapeChar c, d.toNat < 256 := by
  intro d hd
  rw [jsonEscapeChar] at hd
  split_ifs at hd <;>
    first
      | (simp only [List.mem_cons, List.not_mem_nil, or_false] at hd
         rcases hd with rfl | rfl <;> decide)
      | (rcases List.mem_append.mp hd with h | h
         · exact (show ∀ x, x ∈ str "\\u00" → x.toNat < 256 by decide) d h
         · simp only [List.mem_cons, List.not_mem_nil, or_false] at h
           rcases h with rfl | rfl
           · exact hexDigit_byte _
           · exact hexDigit_byte _)
      | (simp only [List.mem_singleton] at hd
         exact hd ▸ hc)

/-- Characters of the serialised JSON header are single-byte when the key id
is. -/
theorem jsonHeaderStr_byte {id : List Char} (hid : ∀ c ∈ id, c.toNat < 256) :
    ∀ c ∈ jsonHeaderStr id, c.toNat < 256 := by
  intro c hc
  rw [jsonHeaderStr] at hc
  rcases List.mem_append.mp hc with h | h
  · rcases List.mem_append.mp h with h | h
    · revert h
      have hlit : ∀ c, c ∈ str "\x7b\"alg\":\"HS256\",\"typ\":\"JWT\",\"kid\":\"" →
          c.toNat < 256 := by decide
      exact hlit c
    · rcases List.mem_flatMap.mp h with ⟨d, hd, hcd⟩
      exact jsonEscapeChar_byte (hid d hd) c hcd
  · revert h
    have hlit : ∀ c, c ∈ str "\"\x7d" → c.toNat < 256 := by decide
    exact hlit c

/-- Characters of the serialised JSON payload are single-byte. -/
theorem jsonPayloadStr_byte (iat expiry : Nat) :
    ∀ c ∈ jsonPayloadStr iat expiry, c.toNat < 256 := by
  intro c hc
  rw [jsonPayloadStr] at hc
  have hlit1 : ∀ c, c ∈ str "\x7b\"iat\":" → c.toNat < 256 := by decide
  have hlit2 : ∀ c, c ∈ str ",\"exp\":" → c.toNat < 256 := by decide
  have hlit3 : ∀ c, c ∈ str ",\"aud\":\"/admin/\"\x7d" → c.toNat < 256 := by decide
  rcases List.mem_append.mp hc with h | h
  · rcases List.mem_append.mp h with h | h
    · rcases List.mem_append.mp h with h | h
      · rcases List.mem_append.mp h with h | h
        · exact hlit1 c h
        · exact natStrAux_byte _ _ h
      · exact hlit2 c h
    · exact natStrAux_byte _ _ h
  · exact hlit3 c h

set_option maxRecDepth 100000 in
/-- Claim C4 (code bug): the signature segment of the minted token is
`base64urlEscape(btoa(encodedHeader + '.' + encodedPayload + '.' + secret))` —
a plain unkeyed base64 encoding of a concatenation that grows with the inputs
— not an HMAC-SHA256.  At the admin key `abc123:00ff00ff` and
`Date.now() = 1700000000000` the signature segment has 179 characters, while
the base64url encoding of any 32-byte HMAC-SHA256 digest has exactly 43, so
the segment cannot equal the base64url encoding of any 32-byte MAC value, in
particular not of `HMAC-SHA256("{encodedHeader}.{encodedPayload}", key)`. -/
theorem C4_signature_not_hmac (mac : List Nat) (hmac32 : mac.length = 32) :
    thirdSegment (generateGhostJWT adminKeyA 1700000000000)
      ≠ base64urlEscape (b64encode mac) := by
  intro heq
  have h1 : (base64urlEscape (b64encode mac)).length = 43 := by
    rw [escape_encode_length, hmac32]
  have h2 : (thirdSegment (generateGhostJWT adminKeyA 1700000000000)).length = 179 := by
    decide
  rw [heq, h1] at h2
  omega

/-- Witness for C4: the signature segment differs from the encoding of the
all-zero 32-byte MAC value. -/
theorem C4_witness :
    thirdSegment (generateGhostJWT adminKeyA 1700000000000)
      ≠ base64urlEscape (b64encode (List.replicate 32 0)) :=
  C4_signature_not_hmac (List.replicate 32 0) (by decide)

/-- Claim C5: for every admin key `id:secret` (single-byte characters, no `:`
in either part), minting succeeds and base64url-decoding the third (signature)
segment of the minted token yields exactly the bytes of
`{encodedHeader}.{encodedPayload}.{secret}` — a string that contains the
secret in the clear as its suffix after the final dot (the two encoded
segments contain no dot), so any holder of a minted token can recover the
signing secret from the token itself. -/
theorem C5_secret_recoverable (id secret : List Char) (nowMs : Nat)
    (hid : ∀ c ∈ id, c.toNat < 256 ∧ c ≠ ':')
    (hsec : ∀ c ∈ secret, c.toNat < 256 ∧ c ≠ ':') :
    ∃ encodedHeader encodedPayload signature,
      generateGhostJWT (id ++ ':' :: secret) nowMs
          = some (encodedHeader, encodedPayload, signature)
      ∧ b64urlDecode signature
          = (encodedHeader ++ '.' :: encodedPayload ++ '.' :: secret).map Char.toNat
      ∧ secret.map Char.toNat <:+ b64urlDecode signature
      ∧ (∀ c ∈ encodedHeader, c ≠ '.')
      ∧ (∀ c ∈ encodedPayload, c ≠ '.') := by
  have hsplit : jsSplit ':' (id ++ ':' :: secret) = id :: jsSplit ':' secret :=
    jsSplit_sep_append ':' id secret (fun c hc => (hid c hc).2)
  have hsecsplit : jsSplit ':' secret = [secret] :=
    jsSplit_no_sep ':' secret (fun c hc => (hsec c hc).2)
  have hbh : btoa (jsonHeaderStr id)
      = some (b64encode ((jsonHeaderStr id).map Char.toNat)) := by
    rw [btoa, if_pos]
    rw [List.all_eq_true]
    intro c hc
    have := jsonHeaderStr_byte (fun d hd => (hid d hd).1) c hc
    simp only [decide_eq_true_eq]
    omega
  have hbp : btoa (jsonPayloadStr (nowMs / 1000) (nowMs / 1000 + 300))
      = some (b64encode ((jsonPayloadStr (nowMs / 1000) (nowMs / 1000 + 300)).map
          Char.toNat)) := by
    rw [btoa, if_pos]
    rw [List.all_eq_true]
    intro c hc
    have := jsonPayloadStr_byte (nowMs / 1000) (nowMs / 1000 + 300) c hc
    simp only [decide_eq_true_eq]
    omega
  set encodedHeader :=
    base64urlEscape (b64encode ((jsonHeaderStr id).map Char.toNat)) with hehdef
  set encodedPayload :=
    base64urlEscape (b64encode ((jsonPayloadStr (nowMs / 1000) (nowMs / 1000 + 300)).map
      Char.toNat)) with hepdef
  have hsigbytes : ∀ c ∈ encodedHeader ++ '.' :: encodedPayload ++ '.' :: secret,
      c.toNat < 256 := by
    intro c hc
    rcases List.mem_append.mp hc with h | h
    · rcases List.mem_append.mp h with h | h
      · exact escape_encode_byte h
      · rcases List.mem_cons.mp h with rfl | h
        · decide
        · exact escape_encode_byte h
    · rcases List.mem_cons.mp h with rfl | h
      · decide
      · exact (hsec c h).1
  have hbs : btoa (encodedHeader ++ '.' :: encodedPayload ++ '.' :: secret)
      = some (b64encode ((encodedHeader ++ '.' :: encodedPayload ++ '.' :: secret).map
          Char.toNat)) := by
    rw [btoa, if_pos]
    rw [List.all_eq_true]
    intro c hc
    have := hsigbytes c hc
    simp only [decide_eq_true_eq]
    omega
  have hdec : b64urlDecode (base64urlEscape (b64encode
        ((encodedHeader ++ '.' :: encodedPayload ++ '.' :: secret).map Char.toNat)))
      = (encodedHeader ++ '.' :: encodedPayload ++ '.' :: secret).map Char.toNat := by
    apply b64urlDecode_escape_encode
    intro b hb
    rcases List.mem_map.mp hb with ⟨c, hc, rfl⟩
    exact hsigbytes c hc
  refine ⟨encodedHeader, encodedPayload,
    base64urlEscape (b64encode
      ((encodedHeader ++ '.' :: encodedPayload ++ '.' :: secret).map Char.toNat)),
    ?_, hdec, ?_, fun c hc => escape_encode_ne_dot hc, fun c hc => escape_encode_ne_dot hc⟩
  · rw [generateGhostJWT, hsplit, hsecsplit]
    simp only [hbh, hbp, hbs]
  · rw [hdec]
    refine ⟨(encodedHeader ++ '.' :: encodedPayload).map Char.toNat ++ ['.'.toNat], ?_⟩
    simp [List.map_append, List.append_assoc]

/-- Witness for C5: at the key `abc:00ff` the secret's bytes are a suffix of
the base64url-decoded signature segment. -/
theorem C5_witness :
    (str "00ff").map Char.toNat
      <:+ b64urlDecode (thirdSegment (generateGhostJWT (str "abc:00ff") 1700000000000)) := by
  have hk : str "abc:00ff" = str "abc" ++ ':' :: str "00ff" := by decide
  obtain ⟨eh, ep, sig, heq, hdec, hsuf, hd1, hd2⟩ :=
    C5_secret_recoverable (str "abc") (str "00ff") 1700000000000 (by decide) (by decide)
  rw [hk, heq]
  exact hsuf

end Lemon
